import Mathlib

/-!
Verification of `lib/util/npm-util.js`: manifest discovery (`findPackageJson`),
the dependency-satisfaction check (`check`, `checkDeps`, `checkDevDeps`) and the
manifest-existence predicate (`checkPackageJson`).

Modelling conventions:
* A directory (`Dir`) is its list of path components ordered innermost-first,
  so `["a"]` is the directory `/a` and `[]` is the filesystem root; the parent
  of `c :: rest` is `rest`, and the parent of the root is the root itself.
  `path.resolve` is assumed already applied: all directories are absolute.
* JavaScript values that the code manipulates are modelled by `JSValue`;
  objects are association lists in property-insertion order (the keys in play
  are package names, which are not array indices, so JavaScript enumerates
  them in insertion order).
* The filesystem, `JSON.parse` and `process.cwd()` are external capabilities,
  bundled in `Env`.  `shell.test("-f", dir/package.json)` is `Env.hasPkg dir`,
  `fs.readFileSync` is `Env.readFile`, and `JSON.parse` is `Env.parse`
  (returning `Except` since parsing can throw).
* Filesystem effects performed by a call are recorded as an `FsEvent` trace
  (existence tests and content reads), and `log.info` calls as a list of
  messages, so that claims about side effects and diagnostics are statable.
* The source line `status[pkg] = deps[pkg] && semver.satisfies();;` references
  a global `semver` that is never required/imported and passes no arguments;
  evaluating it raises `ReferenceError: semver is not defined`.  The embedding
  reproduces this faithfully: whenever `deps[pkg]` is truthy the check aborts
  with `CheckError.referenceError`.
-/

set_option maxHeartbeats 1000000

namespace NpmUtil

/-- A directory as its path components, innermost component first; `[]` is the
filesystem root. -/
abbrev Dir := List String

/-- JavaScript values (the JSON-compatible fragment plus `undefined`), as
manipulated by `check`.  Objects are association lists in property order. -/
inductive JSValue where
  | undef : JSValue
  | null : JSValue
  | bool : Bool → JSValue
  | num : Int → JSValue
  | str : String → JSValue
  | obj : List (String × JSValue) → JSValue

/-- A JavaScript object: an association list in property-insertion order. -/
abbrev JSObj := List (String × JSValue)

/-- JavaScript truthiness of a value (`undefined`, `null`, `false`, `0` and
`""` are falsy; every object is truthy). -/
def truthy : JSValue → Bool
  | .undef => false
  | .null => false
  | .bool b => b
  | .num n => n != 0
  | .str s => s != ""
  | .obj _ => true

/-- Whether `typeof v === "object"` holds in JavaScript: true for objects and
for `null`, false for `undefined` and the primitives. -/
def typeofObject : JSValue → Bool
  | .null => true
  | .obj _ => true
  | _ => false

/-- Whether the value is `null` or `undefined` (property access on such a
value throws a `TypeError` in JavaScript). -/
def jsNullish : JSValue → Bool
  | .undef => true
  | .null => true
  | _ => false

/-- Whether the value is exactly `undefined`. -/
def jsIsUndef : JSValue → Bool
  | .undef => true
  | _ => false

/-- The own enumerable properties of a value, as `Object.assign` enumerates
them: the fields of an object, nothing for `null` and the primitives. -/
def objFields : JSValue → JSObj
  | .obj fs => fs
  | _ => []

/-- Property read `o[k]` on an object association list: the value of the first
matching key, `undefined` when the key is absent. -/
def jsGet : JSObj → String → JSValue
  | [], _ => .undef
  | (k0, v0) :: rest, k => if k0 = k then v0 else jsGet rest k

/-- Property write `o[k] = v` on an object association list: update the
existing key in place, or append the new key at the end (JavaScript
property-insertion order). -/
def jsSet : JSObj → String → JSValue → JSObj
  | [], k, v => [(k, v)]
  | (k0, v0) :: rest, k, v =>
    if k0 = k then (k, v) :: rest else (k0, v0) :: jsSet rest k v

/-- Property access `v.k` on an arbitrary non-nullish value: objects give the
field value, primitives give `undefined`. -/
def jsProp (v : JSValue) (k : String) : JSValue :=
  jsGet (objFields v) k

/-- Copy the listed properties into the target object in order, as the body of
`Object.assign(target, source)` does. -/
def assignList (t : JSObj) : JSObj → JSObj
  | [] => t
  | kv :: rest => assignList (jsSet t kv.1 kv.2) rest

/-- `Object.assign(target, source)`: copy the own enumerable properties of the
source (none when the source is `null` or a primitive) into the target. -/
def objectAssign (t : JSObj) (src : JSValue) : JSObj :=
  assignList t (objFields src)

/-- A filesystem effect performed by the module: an existence test
(`shell.test("-f", dir/package.json)`) or a file-content read
(`fs.readFileSync(dir/package.json)`). -/
inductive FsEvent where
  | test : Dir → FsEvent
  | read : Dir → FsEvent
deriving DecidableEq

/-- Whether the event is an existence test (and not a content read). -/
def FsEvent.isTest : FsEvent → Bool
  | .test _ => true
  | .read _ => false

/-- External capabilities consumed by the module: `shell.test` existence
probing, `fs.readFileSync`, `JSON.parse`, and `process.cwd()`. -/
structure Env where
  hasPkg : Dir → Bool
  readFile : Dir → String
  parse : String → Except String JSValue
  cwd : Dir

/-- The loop of `findPackageJson`, with its trace of existence tests.  The
body tests `dir/package.json`; on success it returns that path (identified by
its directory).  Otherwise the candidate moves to its parent and the `while`
condition `dir !== path.resolve(dir, "..")` is evaluated on the NEW candidate:
when the parent move lands on the root the loop exits and returns `null`
without testing the root itself.  Starting at the root, the `do`-`while` body
still runs once. -/
def findFromE (hasPkg : Dir → Bool) : Dir → Option Dir × List FsEvent
  | [] => (if hasPkg [] then some [] else none, [.test []])
  | c :: rest =>
    if hasPkg (c :: rest) then (some (c :: rest), [.test (c :: rest)])
    else if rest = [] then (none, [.test (c :: rest)])
    else
      let r := findFromE hasPkg rest
      (r.1, .test (c :: rest) :: r.2)

/-- `findPackageJson(startDir)`: resolve `startDir || process.cwd()` and run
the upward search; the result names the directory whose `package.json` was
found, or `none` for the `null` return. -/
def findPackageJson (env : Env) (startDir : Option Dir) : Option Dir :=
  (findFromE env.hasPkg (startDir.getD env.cwd)).1

/-- The number of loop iterations (= existence tests) `findPackageJson`
performs from a given directory. -/
def findFromCount (hasPkg : Dir → Bool) (dir : Dir) : Nat :=
  (findFromE hasPkg dir).2.length

/-- The number of directories on the ancestor chain of `dir`, including `dir`
itself and the filesystem root: the depth of the starting directory. -/
def dirDepth (dir : Dir) : Nat :=
  dir.length + 1

/-- Modelled from the spec: the nearest ancestor of `dir` (including `dir`
itself, up to and including the root) that directly contains a manifest.
This is the specification-side description of what the locator should return;
it is compared against `findFromE`, the embedding of the code. -/
def nearestManifestDir (hasPkg : Dir → Bool) : Dir → Option Dir
  | [] => if hasPkg [] then some [] else none
  | c :: rest =>
    if hasPkg (c :: rest) then some (c :: rest)
    else nearestManifestDir hasPkg rest

/-- The options object taken by `check`: which dependency scopes to consult
and the optional starting directory. -/
structure Opt where
  dependencies : Bool
  devDependencies : Bool
  startDir : Option Dir

/-- The ways `check` can throw: the explicit not-found `Error`, the `Error`
wrapping a `JSON.parse` failure, the `TypeError` from a property access on a
nullish parse result, and the `ReferenceError` from evaluating the undeclared
global `semver`. -/
inductive CheckError where
  | notFound : String → CheckError
  | parseWrapped : String → CheckError
  | typeError : String → CheckError
  | referenceError : String → CheckError
deriving DecidableEq

/-- Message of the not-found error thrown by `check`. -/
def notFoundMsg : String :=
  "Could not find a package.json file. Run \x27npm init\x27 to create one."

/-- The `log.info` diagnostic emitted when `JSON.parse` fails. -/
def parseLogMsg : String :=
  "Could not read package.json file. Please check that the file contains valid JSON."

/-- Message of the `ReferenceError` raised by evaluating the undeclared
global `semver`. -/
def semverRefMsg : String :=
  "semver is not defined"

/-- Message of the `TypeError` raised by a property access on a nullish
parse result. -/
def nullPropMsg : String :=
  "Cannot read properties of null"

/-- The outcome of a `check` call: its return value or thrown error, the
`log.info` messages emitted, and the filesystem effects performed. -/
structure CheckOutcome where
  result : Except CheckError JSObj
  logs : List String
  events : List FsEvent

/-- Lines 86-91 of the source: the merged dependency map.  Starting from `{}`,
merge `fileJson.devDependencies` when the scope requests development
dependencies and that field is of object type, then merge
`fileJson.dependencies` under the same conditions, so direct dependencies
overwrite development entries on key collision. -/
def mergeDeps (opt : Opt) (fileJson : JSValue) : JSObj :=
  let deps : JSObj := []
  let deps :=
    if opt.devDependencies && typeofObject (jsProp fileJson "devDependencies")
    then objectAssign deps (jsProp fileJson "devDependencies") else deps
  if opt.dependencies && typeofObject (jsProp fileJson "dependencies")
  then objectAssign deps (jsProp fileJson "dependencies") else deps

/-- The `reduce` of lines 92-95, threading the accumulator object: for each
requested name in order, evaluate `deps[pkg] && semver.satisfies()`.  When
`deps[pkg]` is falsy the conjunction short-circuits and stores that falsy
value; when it is truthy, evaluating the undeclared global `semver` raises a
`ReferenceError`. -/
def reduceStatusAux (deps : JSObj) (acc : JSObj) : List String → Except CheckError JSObj
  | [] => .ok acc
  | pkg :: rest =>
    let v := jsGet deps pkg
    if truthy v then .error (.referenceError semverRefMsg)
    else reduceStatusAux deps (jsSet acc pkg v) rest

/-- The satisfaction-reporting step of `check`, starting from the empty
accumulator `{}`. -/
def reduceStatus (deps : JSObj) (keys : List String) : Except CheckError JSObj :=
  reduceStatusAux deps [] keys

/-- `check(packages, opt)`: locate the manifest (throw the not-found error
when the search fails), read and parse it (log one diagnostic and throw a
wrapping error when parsing fails), build the merged dependency map, and
reduce the requested package names to a status object.  A nullish parse
result makes the first requested scope's property access throw a `TypeError`.
`packages` is the requested name-to-range object; only its keys are consulted
by the code. -/
def check (env : Env) (packages : List (String × String)) (opt : Opt) : CheckOutcome :=
  let located := findFromE env.hasPkg (opt.startDir.getD env.cwd)
  match located.1 with
  | none => ⟨.error (.notFound notFoundMsg), [], located.2⟩
  | some d =>
    match env.parse (env.readFile d) with
    | .error e => ⟨.error (.parseWrapped e), [parseLogMsg], located.2 ++ [.read d]⟩
    | .ok fileJson =>
      if (opt.devDependencies || opt.dependencies) && jsNullish fileJson then
        ⟨.error (.typeError nullPropMsg), [], located.2 ++ [.read d]⟩
      else
        ⟨reduceStatus (mergeDeps opt fileJson) (packages.map Prod.fst), [],
          located.2 ++ [.read d]⟩

/-- `checkDeps(packages, rootDir)`: `check` with scope `{dependencies: true,
startDir: rootDir}`. -/
def checkDeps (env : Env) (packages : List (String × String)) (rootDir : Option Dir) :
    CheckOutcome :=
  check env packages ⟨true, false, rootDir⟩

/-- `checkDevDeps(packages)`: `check` with scope `{devDependencies: true}`. -/
def checkDevDeps (env : Env) (packages : List (String × String)) : CheckOutcome :=
  check env packages ⟨false, true, none⟩

/-- `checkPackageJson(startDir)`: `!!findPackageJson(startDir)`. -/
def checkPackageJson (env : Env) (startDir : Option Dir) : Bool :=
  (findPackageJson env startDir).isSome

/-! Concrete environments used to instantiate the theorems. -/

/-- The manifest of testable property 3: `dependencies: {"a": "^1.0.0"}` and
`devDependencies: {"b": "^2.0.0"}`. -/
def manifestAB : JSValue :=
  .obj [("dependencies", .obj [("a", .str "^1.0.0")]),
        ("devDependencies", .obj [("b", .str "^2.0.0")])]

/-- An environment with a project at `/proj` whose manifest is `manifestAB`. -/
def envAB : Env :=
  ⟨fun d => d == ["proj"], fun _ => "json-of-manifestAB", fun _ => .ok manifestAB, ["proj"]⟩

/-- An environment whose manifest at `/proj` has an empty `dependencies`
object and no `devDependencies` field. -/
def envEmptyDeps : Env :=
  ⟨fun d => d == ["proj"], fun _ => "json-of-empty", fun _ => .ok (.obj [("dependencies", .obj [])]),
    ["proj"]⟩

/-- A manifest declaring the same package name in `dependencies` and
`devDependencies` with different ranges, for the merge-precedence claim. -/
def manifestX : JSValue :=
  .obj [("dependencies", .obj [("x", .str "^1.0.0")]),
        ("devDependencies", .obj [("x", .str "^9.9.9")])]

/-- An environment with a manifest at `/proj` whose contents do not parse. -/
def envBadJson : Env :=
  ⟨fun d => d == ["proj"], fun _ => "not json", fun _ => .error "Unexpected end of JSON input",
    ["proj"]⟩

/-- An environment with no manifest anywhere. -/
def envNoPkg : Env :=
  ⟨fun _ => false, fun _ => "", fun s => .ok (.str s), ["a", "b"]⟩

/-- An environment whose only manifest sits at the filesystem root. -/
def envRootPkg : Env :=
  ⟨fun d => d.isEmpty, fun _ => "json", fun _ => .ok (.obj []), ["a"]⟩

/-- An environment whose manifest declares `devDependencies` as a string (a
malformed, non-object field) and `dependencies` as an object. -/
def envStringDevDeps : Env :=
  ⟨fun d => d == ["proj"], fun _ => "json",
    fun _ => .ok (.obj [("devDependencies", .str "oops"),
                        ("dependencies", .obj [("a", .str "^1.0.0")])]),
    ["proj"]⟩

/-! Association-list lemmas about `jsGet`, `jsSet` and `assignList`. -/

theorem jsGet_jsSet (t : JSObj) (k kq : String) (v : JSValue) :
    jsGet (jsSet t k v) kq = if k = kq then v else jsGet t kq := by
  induction t with
  | nil => rfl
  | cons hd tl ih =>
    obtain ⟨k0, v0⟩ := hd
    by_cases h0 : k0 = k
    · subst h0
      simp only [jsSet, if_pos rfl, jsGet]
      by_cases hq : k0 = kq <;> simp [jsGet, hq]
    · simp only [jsSet, if_neg h0, jsGet]
      by_cases hq : k0 = kq
      · subst hq
        have hk : ¬k = k0 := fun h => h0 h.symm
        simp [jsGet, hk]
      · simp [jsGet, hq, ih]

theorem mem_keys_jsSet (t : JSObj) (k kq : String) (v : JSValue) :
    kq ∈ (jsSet t k v).map Prod.fst ↔ kq = k ∨ kq ∈ t.map Prod.fst := by
  induction t with
  | nil => simp [jsSet]
  | cons hd tl ih =>
    obtain ⟨k0, v0⟩ := hd
    by_cases h0 : k0 = k
    · subst h0
      simp only [jsSet, if_pos rfl]
      simp
    · simp only [jsSet, if_neg h0]
      simp only [List.map_cons, List.mem_cons, ih]
      tauto

theorem jsSet_eq_append (t : JSObj) (k : String) (v : JSValue)
    (h : k ∉ t.map Prod.fst) : jsSet t k v = t ++ [(k, v)] := by
  induction t with
  | nil => rfl
  | cons hd tl ih =>
    obtain ⟨k0, v0⟩ := hd
    simp only [List.map_cons, List.mem_cons] at h
    push_neg at h
    have h0 : ¬k0 = k := fun hh => h.1 hh.symm
    simp [jsSet, h0, ih h.2]

theorem jsGet_assignList_not_mem (l : List (String × JSValue)) (t : JSObj) (k : String)
    (h : k ∉ l.map Prod.fst) : jsGet (assignList t l) k = jsGet t k := by
  induction l generalizing t with
  | nil => rfl
  | cons hd tl ih =>
    obtain ⟨k0, v0⟩ := hd
    simp only [List.map_cons, List.mem_cons] at h
    push_neg at h
    simp only [assignList]
    rw [ih _ h.2, jsGet_jsSet]
    have h0 : ¬k0 = k := fun hh => h.1 hh.symm
    simp [h0]

theorem jsGet_assignList_mem (l : List (String × JSValue)) (t : JSObj) (k : String)
    (hnd : (l.map Prod.fst).Nodup) (h : k ∈ l.map Prod.fst) :
    jsGet (assignList t l) k = jsGet l k := by
  induction l generalizing t with
  | nil => simp at h
  | cons hd tl ih =>
    obtain ⟨k0, v0⟩ := hd
    simp only [List.map_cons, List.nodup_cons] at hnd
    simp only [List.map_cons, List.mem_cons] at h
    by_cases hk : k = k0
    · subst hk
      simp only [assignList]
      rw [jsGet_assignList_not_mem _ _ _ hnd.1, jsGet_jsSet]
      simp [jsGet]
    · have hmem : k ∈ tl.map Prod.fst := h.resolve_left hk
      simp only [assignList]
      rw [ih _ hnd.2 hmem]
      have h0 : ¬k0 = k := fun hh => hk hh.symm
      simp [jsGet, h0]

theorem mem_keys_assignList (l : List (String × JSValue)) (t : JSObj) (k : String)
    (h : k ∈ (assignList t l).map Prod.fst) :
    k ∈ t.map Prod.fst ∨ k ∈ l.map Prod.fst := by
  induction l generalizing t with
  | nil => exact Or.inl h
  | cons hd tl ih =>
    obtain ⟨k0, v0⟩ := hd
    simp only [assignList] at h
    rcases ih _ h with hmem | hmem
    · rcases (mem_keys_jsSet t k0 k v0).mp hmem with rfl | hmem
      · simp
      · exact Or.inl hmem
    · simp [hmem]

/-! Lemmas about the upward search `findFromE`. -/

theorem findFromE_events_test (hasPkg : Dir → Bool) (dir : Dir) :
    ∀ ev ∈ (findFromE hasPkg dir).2, FsEvent.isTest ev = true := by
  induction dir with
  | nil =>
    intro ev hev
    simp only [findFromE] at hev
    simp at hev
    simp [hev, FsEvent.isTest]
  | cons c rest ih =>
    intro ev hev
    by_cases h1 : hasPkg (c :: rest) = true
    · simp [findFromE, h1] at hev
      simp [hev, FsEvent.isTest]
    · simp only [Bool.not_eq_true] at h1
      by_cases h2 : rest = []
      · subst h2
        simp [findFromE, h1] at hev
        simp [hev, FsEvent.isTest]
      · simp [findFromE, h1, h2] at hev
        rcases hev with rfl | hev
        · simp [FsEvent.isTest]
        · exact ih ev hev

theorem findFromE_count_le (hasPkg : Dir → Bool) (dir : Dir) :
    findFromCount hasPkg dir ≤ dirDepth dir := by
  induction dir with
  | nil => simp [findFromCount, findFromE, dirDepth]
  | cons c rest ih =>
    by_cases h1 : hasPkg (c :: rest) = true
    · simp [findFromCount, findFromE, dirDepth, h1]
    · simp only [Bool.not_eq_true] at h1
      by_cases h2 : rest = []
      · subst h2
        simp [findFromCount, findFromE, dirDepth, h1]
      · simp only [findFromCount, findFromE, dirDepth, h1, h2, Bool.false_eq_true, if_false,
          List.length_cons] at *
        omega

theorem findFromE_none_of_all_absent (hasPkg : Dir → Bool) (dir : Dir)
    (h : ∀ s ∈ dir.tails, hasPkg s = false) : (findFromE hasPkg dir).1 = none := by
  induction dir with
  | nil =>
    have h0 : hasPkg [] = false := h [] (by simp)
    simp [findFromE, h0]
  | cons c rest ih =>
    have h0 : hasPkg (c :: rest) = false := h (c :: rest) (by simp)
    by_cases h2 : rest = []
    · subst h2
      simp [findFromE, h0]
    · have hrest : ∀ s ∈ rest.tails, hasPkg s = false := by
        intro s hs
        exact h s (by simp [List.tails_cons, hs])
      simp [findFromE, h0, h2, ih hrest]

theorem findFromE_eq_nearest_of_ne_root (hasPkg : Dir → Bool) (dir a : Dir)
    (h : nearestManifestDir hasPkg dir = some a) (ha : a ≠ [] ∨ dir = []) :
    (findFromE hasPkg dir).1 = some a := by
  induction dir with
  | nil =>
    simp only [nearestManifestDir] at h
    by_cases h0 : hasPkg [] = true
    · simp [h0] at h
      simp [findFromE, h0, h]
    · simp only [Bool.not_eq_true] at h0
      simp [h0] at h
  | cons c rest ih =>
    have ha' : a ≠ [] := ha.resolve_right (by simp)
    simp only [nearestManifestDir] at h
    by_cases h0 : hasPkg (c :: rest) = true
    · simp [h0] at h
      subst h
      simp [findFromE, h0]
    · simp only [Bool.not_eq_true] at h0
      simp only [h0, Bool.false_eq_true, if_false] at h
      by_cases h2 : rest = []
      · subst h2
        simp only [nearestManifestDir] at h
        by_cases hr : hasPkg [] = true
        · simp [hr] at h
          exact absurd h ha'
        · simp only [Bool.not_eq_true] at hr
          simp [hr] at h
      · simp [findFromE, h0, h2, ih h (Or.inl ha')]

theorem findFromE_none_of_nearest_root (hasPkg : Dir → Bool) (dir : Dir)
    (h : nearestManifestDir hasPkg dir = some []) (hd : dir ≠ []) :
    (findFromE hasPkg dir).1 = none := by
  induction dir with
  | nil => exact absurd rfl hd
  | cons c rest ih =>
    simp only [nearestManifestDir] at h
    by_cases h0 : hasPkg (c :: rest) = true
    · simp [h0] at h
    · simp only [Bool.not_eq_true] at h0
      simp only [h0, Bool.false_eq_true, if_false] at h
      by_cases h2 : rest = []
      · subst h2
        simp [findFromE, h0]
      · simp [findFromE, h0, h2, ih h h2]

/-! Lemmas about the reporting step and the merged dependency map. -/

theorem jsIsUndef_eq (v : JSValue) (h : jsIsUndef v = true) : v = .undef := by
  cases v <;> simp [jsIsUndef] at h ⊢

theorem reduceStatusAux_all_undef (deps : JSObj) (keys : List String) (acc : JSObj)
    (hud : ∀ k ∈ keys, jsGet deps k = .undef) (hnd : keys.Nodup)
    (hdisj : ∀ k ∈ keys, k ∉ acc.map Prod.fst) :
    reduceStatusAux deps acc keys = .ok (acc ++ keys.map fun k => (k, JSValue.undef)) := by
  induction keys generalizing acc with
  | nil => simp [reduceStatusAux]
  | cons pkg rest ih =>
    have hu : jsGet deps pkg = .undef := hud pkg (by simp)
    simp only [List.nodup_cons] at hnd
    simp only [reduceStatusAux, hu, truthy, Bool.false_eq_true, if_false]
    rw [jsSet_eq_append _ _ _ (hdisj pkg (by simp))]
    have hud' : ∀ k ∈ rest, jsGet deps k = .undef := fun k hk => hud k (by simp [hk])
    have hdisj' : ∀ k ∈ rest, k ∉ (acc ++ [(pkg, JSValue.undef)]).map Prod.fst := by
      intro k hk
      simp only [List.map_append, List.mem_append, List.map_cons, List.map_nil,
        List.mem_singleton]
      push_neg
      exact ⟨hdisj k (by simp [hk]), fun hkp => hnd.1 (hkp ▸ hk)⟩
    rw [ih (acc ++ [(pkg, JSValue.undef)]) hud' hnd.2 hdisj']
    simp

theorem reduceStatusAux_ok_keys (deps : JSObj) (keys : List String) (acc m : JSObj)
    (hnd : keys.Nodup) (hdisj : ∀ k ∈ keys, k ∉ acc.map Prod.fst)
    (h : reduceStatusAux deps acc keys = .ok m) :
    m.map Prod.fst = acc.map Prod.fst ++ keys := by
  induction keys generalizing acc with
  | nil =>
    simp only [reduceStatusAux, Except.ok.injEq] at h
    simp [← h]
  | cons pkg rest ih =>
    simp only [List.nodup_cons] at hnd
    simp only [reduceStatusAux] at h
    by_cases ht : truthy (jsGet deps pkg) = true
    · rw [if_pos ht] at h
      exact absurd h (by simp)
    · rw [if_neg ht] at h
      have hset := jsSet_eq_append acc pkg (jsGet deps pkg) (hdisj pkg (by simp))
      rw [hset] at h
      have hdisj' : ∀ k ∈ rest, k ∉ (acc ++ [(pkg, jsGet deps pkg)]).map Prod.fst := by
        intro k hk
        simp only [List.map_append, List.mem_append, List.map_cons, List.map_nil,
          List.mem_singleton]
        push_neg
        exact ⟨hdisj k (by simp [hk]), fun hkp => hnd.1 (hkp ▸ hk)⟩
      have := ih (acc ++ [(pkg, jsGet deps pkg)]) hnd.2 hdisj' h
      simpa using this

theorem mergeDeps_dev_skip (opt : Opt) (m : JSValue)
    (h : typeofObject (jsProp m "devDependencies") = false) :
    mergeDeps opt m = mergeDeps ⟨opt.dependencies, false, opt.startDir⟩ m := by
  simp [mergeDeps, h]

theorem mergeDeps_dep_skip (opt : Opt) (m : JSValue)
    (h : typeofObject (jsProp m "dependencies") = false) :
    mergeDeps opt m = mergeDeps ⟨false, opt.devDependencies, opt.startDir⟩ m := by
  simp [mergeDeps, h]

/-! Characterizations of the three paths through `check`. -/

theorem check_not_found (env : Env) (packages : List (String × String)) (opt : Opt)
    (hloc : findPackageJson env opt.startDir = none) :
    check env packages opt =
      ⟨.error (.notFound notFoundMsg), [],
        (findFromE env.hasPkg (opt.startDir.getD env.cwd)).2⟩ := by
  have hloc' : (findFromE env.hasPkg (opt.startDir.getD env.cwd)).1 = none := hloc
  simp [check, hloc']

theorem check_parse_failed (env : Env) (packages : List (String × String)) (opt : Opt)
    (d : Dir) (e : String)
    (hloc : findPackageJson env opt.startDir = some d)
    (hparse : env.parse (env.readFile d) = .error e) :
    check env packages opt =
      ⟨.error (.parseWrapped e), [parseLogMsg],
        (findFromE env.hasPkg (opt.startDir.getD env.cwd)).2 ++ [.read d]⟩ := by
  have hloc' : (findFromE env.hasPkg (opt.startDir.getD env.cwd)).1 = some d := hloc
  simp [check, hloc', hparse]

theorem check_parsed (env : Env) (packages : List (String × String)) (opt : Opt)
    (d : Dir) (m : JSValue)
    (hloc : findPackageJson env opt.startDir = some d)
    (hparse : env.parse (env.readFile d) = .ok m)
    (hguard : ((opt.devDependencies || opt.dependencies) && jsNullish m) = false) :
    check env packages opt =
      ⟨reduceStatus (mergeDeps opt m) (packages.map Prod.fst), [],
        (findFromE env.hasPkg (opt.startDir.getD env.cwd)).2 ++ [.read d]⟩ := by
  have hloc' : (findFromE env.hasPkg (opt.startDir.getD env.cwd)).1 = some d := hloc
  simp [check, hloc', hparse, hguard]

theorem check_null_manifest (env : Env) (packages : List (String × String)) (opt : Opt)
    (d : Dir) (m : JSValue)
    (hloc : findPackageJson env opt.startDir = some d)
    (hparse : env.parse (env.readFile d) = .ok m)
    (hguard : ((opt.devDependencies || opt.dependencies) && jsNullish m) = true) :
    check env packages opt =
      ⟨.error (.typeError nullPropMsg), [],
        (findFromE env.hasPkg (opt.startDir.getD env.cwd)).2 ++ [.read d]⟩ := by
  have hloc' : (findFromE env.hasPkg (opt.startDir.getD env.cwd)).1 = some d := hloc
  simp [check, hloc', hparse, hguard]

/-! The claims. -/

/-- C1: the claim says `checkDeps({"a": "^1.0.0", "b": "^2.0.0"})` on a
manifest with `dependencies: {"a": "^1.0.0"}` and
`devDependencies: {"b": "^2.0.0"}` returns `{a: true, b: false}` and
`checkDevDeps` of the same request returns `{a: false, b: true}`, with
satisfaction decided by comparing the version ranges.  The code instead
evaluates `deps[pkg] && semver.satisfies()`: `semver` is an undeclared
global and no ranges are passed, so on the first requested package whose
declared entry is truthy the call throws `ReferenceError: semver is not
defined`; both convenience entry points abort and no ranges are ever
compared.  This theorem evaluates the code at the claimed inputs. -/
theorem npm_c1_semver_reference_error :
    (checkDeps envAB [("a", "^1.0.0"), ("b", "^2.0.0")] (some ["proj"])).result
      = .error (.referenceError semverRefMsg) ∧
    (checkDevDeps envAB [("a", "^1.0.0"), ("b", "^2.0.0")]).result
      = .error (.referenceError semverRefMsg) :=
  ⟨rfl, rfl⟩

/-- C2, counterexample: for the requested package `"c"` absent from the merged
map, `check` stores the short-circuited value `deps["c"]`, which is
`undefined`, not the boolean `false`; the claim as stated (the result value is
`false`) fails at this input. -/
theorem npm_c2_counterexample :
    (checkDeps envEmptyDeps [("c", "^1.0.0")] (some ["proj"])).result
      = .ok [("c", JSValue.undef)] ∧
    JSValue.undef ≠ JSValue.bool false :=
  ⟨rfl, fun h => nomatch h⟩

/-- C2, amended: for every requested package name absent from the merged
dependency map (every requested name mapping to `undefined` in it), `check`
returns the value `undefined` for that name — a falsy value, not the boolean
`false` — and no error is raised on account of the absence: when every
requested name is absent the call returns normally. -/
theorem npm_c2_absent_is_undefined (env : Env) (packages : List (String × String))
    (opt : Opt) (d : Dir) (m : JSValue)
    (hloc : findPackageJson env opt.startDir = some d)
    (hparse : env.parse (env.readFile d) = .ok m)
    (hguard : ((opt.devDependencies || opt.dependencies) && jsNullish m) = false)
    (habs : (packages.map Prod.fst).all
      (fun k => jsIsUndef (jsGet (mergeDeps opt m) k)) = true)
    (hnd : (packages.map Prod.fst).Nodup) :
    (check env packages opt).result = .ok (packages.map fun p => (p.1, JSValue.undef)) := by
  have h1 : ∀ k ∈ packages.map Prod.fst, jsGet (mergeDeps opt m) k = .undef := by
    intro k hk
    apply jsIsUndef_eq
    rw [List.all_eq_true] at habs
    exact habs k hk
  have h2 : ∀ k ∈ packages.map Prod.fst, k ∉ ([] : JSObj).map Prod.fst := by simp
  rw [check_parsed env packages opt d m hloc hparse hguard]
  show reduceStatus (mergeDeps opt m) (packages.map Prod.fst)
    = .ok (packages.map fun p => (p.1, JSValue.undef))
  rw [reduceStatus,
    reduceStatusAux_all_undef (mergeDeps opt m) (packages.map Prod.fst) [] h1 hnd h2]
  simp [List.map_map, Function.comp]

/-- C2, witness: instantiating the amended claim on a manifest with an empty
`dependencies` object and the single absent request `"c"`. -/
theorem npm_c2_absent_is_undefined_witness :
    findPackageJson envEmptyDeps (some ["proj"]) = some ["proj"] ∧
    (check envEmptyDeps [("c", "^1.0.0")] ⟨true, false, some ["proj"]⟩).result
      = .ok [("c", JSValue.undef)] :=
  ⟨rfl, npm_c2_absent_is_undefined envEmptyDeps [("c", "^1.0.0")]
    ⟨true, false, some ["proj"]⟩ ["proj"] (.obj [("dependencies", .obj [])])
    rfl rfl rfl rfl (by simp)⟩

/-- C3: the merged dependency map contains `devDependencies` entries only if
the scope requests development dependencies, `dependencies` entries only if
the scope requests direct dependencies, and on key collision with both scopes
requested the direct-dependency range wins (it is merged second): every key of
the merged map comes from a requested scope, and whenever the scope requests
direct dependencies and a key occurs in the manifest `dependencies` object
(with well-formed, duplicate-free keys), the merged map carries that direct
range. -/
theorem npm_c3_merge_scope_and_precedence (opt : Opt) (m : JSValue) (k : String) :
    (k ∈ (mergeDeps opt m).map Prod.fst →
      (opt.devDependencies = true ∧
        k ∈ (objFields (jsProp m "devDependencies")).map Prod.fst) ∨
      (opt.dependencies = true ∧
        k ∈ (objFields (jsProp m "dependencies")).map Prod.fst)) ∧
    (opt.dependencies = true → typeofObject (jsProp m "dependencies") = true →
      ((objFields (jsProp m "dependencies")).map Prod.fst).Nodup →
      k ∈ (objFields (jsProp m "dependencies")).map Prod.fst →
      jsGet (mergeDeps opt m) k = jsGet (objFields (jsProp m "dependencies")) k) := by
  constructor
  · intro hmem
    simp only [mergeDeps, objectAssign] at hmem
    by_cases g2 : (opt.dependencies && typeofObject (jsProp m "dependencies")) = true
    · rw [if_pos g2] at hmem
      rcases mem_keys_assignList _ _ _ hmem with h1 | h1
      · by_cases g1 :
          (opt.devDependencies && typeofObject (jsProp m "devDependencies")) = true
        · rw [if_pos g1] at h1
          rw [Bool.and_eq_true] at g1
          rcases mem_keys_assignList _ _ _ h1 with h2 | h2
          · simp at h2
          · exact Or.inl ⟨g1.1, h2⟩
        · rw [if_neg g1] at h1
          simp at h1
      · rw [Bool.and_eq_true] at g2
        exact Or.inr ⟨g2.1, h1⟩
    · rw [if_neg g2] at hmem
      by_cases g1 :
        (opt.devDependencies && typeofObject (jsProp m "devDependencies")) = true
      · rw [if_pos g1] at hmem
        rw [Bool.and_eq_true] at g1
        rcases mem_keys_assignList _ _ _ hmem with h2 | h2
        · simp at h2
        · exact Or.inl ⟨g1.1, h2⟩
      · rw [if_neg g1] at hmem
        simp at hmem
  · intro hdep hobj hnd hk
    have g2 : (opt.dependencies && typeofObject (jsProp m "dependencies")) = true := by
      simp [hdep, hobj]
    simp only [mergeDeps, objectAssign]
    rw [if_pos g2]
    exact jsGet_assignList_mem _ _ _ hnd hk

/-- C3, witness: on a manifest declaring `x` in both scopes with different
ranges and a scope requesting both, the merged map carries the
direct-dependency range of `x`. -/
theorem npm_c3_merge_witness :
    typeofObject (jsProp manifestX "dependencies") = true ∧
    jsGet (mergeDeps ⟨true, true, none⟩ manifestX) "x"
      = jsGet (objFields (jsProp manifestX "dependencies")) "x" :=
  ⟨rfl, (npm_c3_merge_scope_and_precedence ⟨true, true, none⟩ manifestX "x").2
    rfl rfl (by decide) (by decide)⟩

/-- C4: when the located manifest fails to parse, `check` logs exactly one
informational diagnostic and throws an error wrapping the parse failure; the
failure is returned to the caller (never swallowed or retried). -/
theorem npm_c4_parse_error_logged (env : Env) (packages : List (String × String))
    (opt : Opt) (d : Dir) (e : String)
    (hloc : findPackageJson env opt.startDir = some d)
    (hparse : env.parse (env.readFile d) = .error e) :
    (check env packages opt).result = .error (.parseWrapped e) ∧
    (check env packages opt).logs = [parseLogMsg] := by
  rw [check_parse_failed env packages opt d e hloc hparse]
  exact ⟨rfl, rfl⟩

/-- C4, witness: a manifest whose contents fail to parse makes `check` return
the wrapped parse error, with exactly the one diagnostic logged. -/
theorem npm_c4_parse_error_witness :
    envBadJson.parse (envBadJson.readFile ["proj"]) = .error "Unexpected end of JSON input" ∧
    (check envBadJson [("a", "^1.0.0")] ⟨true, false, some ["proj"]⟩).result
      = .error (.parseWrapped "Unexpected end of JSON input") ∧
    (check envBadJson [("a", "^1.0.0")] ⟨true, false, some ["proj"]⟩).logs = [parseLogMsg] :=
  ⟨rfl,
    (npm_c4_parse_error_logged envBadJson [("a", "^1.0.0")] ⟨true, false, some ["proj"]⟩
      ["proj"] "Unexpected end of JSON input" rfl rfl).1,
    (npm_c4_parse_error_logged envBadJson [("a", "^1.0.0")] ⟨true, false, some ["proj"]⟩
      ["proj"] "Unexpected end of JSON input" rfl rfl).2⟩

/-- C5: when no manifest is discoverable by the upward search, `check` throws
the not-found error whose message instructs the user to run `npm init`,
performs no file-content read (every filesystem event of the call is an
existence test), and emits no log: the check aborts with no partial report. -/
theorem npm_c5_not_found_no_read (env : Env) (packages : List (String × String))
    (opt : Opt) (hloc : findPackageJson env opt.startDir = none) :
    (check env packages opt).result = .error (.notFound notFoundMsg) ∧
    (∀ ev ∈ (check env packages opt).events, FsEvent.isTest ev = true) ∧
    (check env packages opt).logs = [] := by
  rw [check_not_found env packages opt hloc]
  exact ⟨rfl, findFromE_events_test env.hasPkg (opt.startDir.getD env.cwd), rfl⟩

/-- C5, witness: in an environment with no manifest anywhere, `check` from
`/a/b` returns the not-found error and its event trace holds only existence
tests. -/
theorem npm_c5_not_found_witness :
    findPackageJson envNoPkg none = none ∧
    (check envNoPkg [("x", "1.0.0")] ⟨true, true, none⟩).result
      = .error (.notFound notFoundMsg) ∧
    FsEvent.isTest (FsEvent.test ["a", "b"]) = true :=
  ⟨rfl,
    (npm_c5_not_found_no_read envNoPkg [("x", "1.0.0")] ⟨true, true, none⟩ rfl).1,
    (npm_c5_not_found_no_read envNoPkg [("x", "1.0.0")] ⟨true, true, none⟩ rfl).2.1
      (FsEvent.test ["a", "b"]) (by decide)⟩

/-- C6, counterexample: with a manifest only at the filesystem root and the
search starting at `/a`, the nearest manifest-bearing ancestor is the root,
yet `findPackageJson` returns `null`: the claim that the nearest ancestor
manifest is always returned fails, because the loop condition is evaluated
after the parent move and exits on reaching the root without testing it. -/
theorem npm_c6_counterexample :
    nearestManifestDir envRootPkg.hasPkg ["a"] = some [] ∧
    (findFromE envRootPkg.hasPkg ["a"]).1 = none :=
  ⟨rfl, rfl⟩

/-- C6, amended: for every directory `D` whose nearest manifest-bearing
ancestor is `A`, `locate(D)` returns the manifest of `A` — hence never one at
a strictly farther ancestor — provided `A` is not the filesystem root or `D`
itself is the root; when the nearest (and only) manifest-bearing ancestor is
the root and `D` is deeper, the root is never tested and `locate` returns the
absent sentinel. -/
theorem npm_c6_nearest_amended (hasPkg : Dir → Bool) (dir a : Dir)
    (h : nearestManifestDir hasPkg dir = some a) :
    ((a ≠ [] ∨ dir = []) → (findFromE hasPkg dir).1 = some a) ∧
    (a = [] → dir ≠ [] → (findFromE hasPkg dir).1 = none) :=
  ⟨fun ha => findFromE_eq_nearest_of_ne_root hasPkg dir a h ha,
   fun ha hd => findFromE_none_of_nearest_root hasPkg dir (ha ▸ h) hd⟩

/-- C6, witness: a manifest at `/p` is the nearest ancestor manifest of
`/p/c` and is what the search returns. -/
theorem npm_c6_nearest_witness :
    nearestManifestDir (fun d => d == ["p"]) ["c", "p"] = some ["p"] ∧
    (findFromE (fun d => d == ["p"]) ["c", "p"]).1 = some ["p"] :=
  ⟨rfl, (npm_c6_nearest_amended (fun d => d == ["p"]) ["c", "p"] ["p"] rfl).1
    (Or.inl (by decide))⟩

/-- C7: the upward search always terminates in at most (depth of the starting
directory) iterations, where the depth counts the directories on the chain
from the start up to and including the root, the loop stopping once the
candidate equals its own parent; and when no manifest exists anywhere on the
ancestor chain (every suffix of the component list, the root included, lacks
one), the search returns the absent sentinel. -/
theorem npm_c7_termination_and_absent (hasPkg : Dir → Bool) (dir : Dir) :
    findFromCount hasPkg dir ≤ dirDepth dir ∧
    ((∀ s ∈ dir.tails, hasPkg s = false) → (findFromE hasPkg dir).1 = none) :=
  ⟨findFromE_count_le hasPkg dir, findFromE_none_of_all_absent hasPkg dir⟩

/-- C7, witness: from `/a/b` with no manifest anywhere the search performs at
most `dirDepth ["a", "b"] = 3` tests and returns the absent sentinel. -/
theorem npm_c7_termination_witness :
    findFromCount (fun _ => false) ["a", "b"] ≤ dirDepth ["a", "b"] ∧
    (findFromE (fun _ => false) ["a", "b"]).1 = none :=
  ⟨(npm_c7_termination_and_absent (fun _ => false) ["a", "b"]).1,
    (npm_c7_termination_and_absent (fun _ => false) ["a", "b"]).2 (by decide)⟩

/-- C8: `checkPackageJson(dir)` is true exactly when `findPackageJson(dir)`
returns a non-absent path for the same starting directory, and the locator
both of them run performs only existence tests — never a file-content read —
so neither operation has side effects beyond read-only probing. -/
theorem npm_c8_checkPackageJson_iff (env : Env) (s : Option Dir) :
    (checkPackageJson env s = true ↔ (findPackageJson env s).isSome = true) ∧
    (∀ ev ∈ (findFromE env.hasPkg (s.getD env.cwd)).2, FsEvent.isTest ev = true) :=
  ⟨Iff.rfl, findFromE_events_test env.hasPkg (s.getD env.cwd)⟩

/-- C8, witness: instantiated in the manifest-free environment at the default
starting directory; the first probed event is an existence test. -/
theorem npm_c8_checkPackageJson_witness :
    (checkPackageJson envNoPkg none = true ↔ (findPackageJson envNoPkg none).isSome = true) ∧
    FsEvent.isTest (FsEvent.test ["b"]) = true :=
  ⟨(npm_c8_checkPackageJson_iff envNoPkg none).1,
    (npm_c8_checkPackageJson_iff envNoPkg none).2 (FsEvent.test ["b"]) (by decide)⟩

/-- C9: every successful `check` call returns a report whose key list is
exactly the requested key list — same names, same order. -/
theorem npm_c9_result_keys (env : Env) (packages : List (String × String)) (opt : Opt)
    (m : JSObj) (h : (check env packages opt).result = .ok m)
    (hnd : (packages.map Prod.fst).Nodup) :
    m.map Prod.fst = packages.map Prod.fst := by
  rcases hfe : (findFromE env.hasPkg (opt.startDir.getD env.cwd)).1 with _ | d
  · rw [check_not_found env packages opt hfe] at h
    simp at h
  · rcases hp : env.parse (env.readFile d) with e | fileJson
    · rw [check_parse_failed env packages opt d e hfe hp] at h
      simp at h
    · cases hg : ((opt.devDependencies || opt.dependencies) && jsNullish fileJson) with
      | true =>
        rw [check_null_manifest env packages opt d fileJson hfe hp hg] at h
        simp at h
      | false =>
        rw [check_parsed env packages opt d fileJson hfe hp hg] at h
        have h' : reduceStatusAux (mergeDeps opt fileJson) [] (packages.map Prod.fst)
            = .ok m := h
        have hkeys := reduceStatusAux_ok_keys (mergeDeps opt fileJson)
          (packages.map Prod.fst) [] m hnd (by simp) h'
        simpa using hkeys

/-- C9, witness: a successful call on two absent requests returns the keys
`c`, `d` in the requested order. -/
theorem npm_c9_result_keys_witness :
    (check envEmptyDeps [("c", "^1.0.0"), ("d", "^2.0.0")] ⟨true, false, some ["proj"]⟩).result
      = .ok [("c", JSValue.undef), ("d", JSValue.undef)] ∧
    ([("c", JSValue.undef), ("d", JSValue.undef)].map Prod.fst
      = [("c", "^1.0.0"), ("d", "^2.0.0")].map Prod.fst) :=
  ⟨rfl, npm_c9_result_keys envEmptyDeps [("c", "^1.0.0"), ("d", "^2.0.0")]
    ⟨true, false, some ["proj"]⟩ [("c", JSValue.undef), ("d", JSValue.undef)] rfl (by decide)⟩

/-- C10: a `devDependencies` or `dependencies` field that is absent or not of
object type is silently skipped: `check` raises no error on account of it and
behaves exactly as if that scope had not been requested, so the merged map is
built from the remaining requested scope only (possibly empty). -/
theorem npm_c10_malformed_scope_skipped (env : Env) (packages : List (String × String))
    (opt : Opt) (d : Dir) (m : JSValue)
    (hloc : findPackageJson env opt.startDir = some d)
    (hparse : env.parse (env.readFile d) = .ok m)
    (hnn : jsNullish m = false) :
    (typeofObject (jsProp m "devDependencies") = false →
      check env packages opt = check env packages ⟨opt.dependencies, false, opt.startDir⟩) ∧
    (typeofObject (jsProp m "dependencies") = false →
      check env packages opt = check env packages ⟨false, opt.devDependencies, opt.startDir⟩) := by
  constructor
  · intro hdev
    rw [check_parsed env packages opt d m hloc hparse (by simp [hnn]),
      check_parsed env packages ⟨opt.dependencies, false, opt.startDir⟩ d m hloc hparse
        (by simp [hnn]),
      mergeDeps_dev_skip opt m hdev]
  · intro hdep
    rw [check_parsed env packages opt d m hloc hparse (by simp [hnn]),
      check_parsed env packages ⟨false, opt.devDependencies, opt.startDir⟩ d m hloc hparse
        (by simp [hnn]),
      mergeDeps_dep_skip opt m hdep]

/-- C10, witness: with `devDependencies` declared as a string, a call
requesting both scopes coincides with the call requesting direct dependencies
only. -/
theorem npm_c10_malformed_witness :
    typeofObject (jsProp (.obj [("devDependencies", .str "oops"),
        ("dependencies", .obj [("a", .str "^1.0.0")])]) "devDependencies") = false ∧
    check envStringDevDeps [("z", "^1.0.0")] ⟨true, true, some ["proj"]⟩
      = check envStringDevDeps [("z", "^1.0.0")] ⟨true, false, some ["proj"]⟩ :=
  ⟨rfl, (npm_c10_malformed_scope_skipped envStringDevDeps [("z", "^1.0.0")]
      ⟨true, true, some ["proj"]⟩ ["proj"]
      (.obj [("devDependencies", .str "oops"), ("dependencies", .obj [("a", .str "^1.0.0")])])
      rfl rfl rfl).1 rfl⟩

end NpmUtil
